import Mathlib

/-!
Verification of the feed-tree data model and message-store synchronization
engine of the RSS Guard feed aggregator, shallowly embedded from
`src/core/feedsmodel.cpp` and `src/core/messagesmodel.cpp`.

The persistent store, the owning-service hooks and the Qt model plumbing are
external collaborators; their answers are modelled as Boolean oracles, and
their calls are recorded in explicit event traces so that frame and ordering
properties can be stated.
-/

namespace RssGuard

/-! ## Feed scheduling (`FeedsModel::feedsForScheduledUpdate`) -/

/-- Auto-update modes of one feed (`StandardFeed::AutoUpdateType`).
Any unknown enum value falls into the `SpecificAutoUpdate` branch of the
`switch` in the source, so the three constructors cover all behaviours. -/
inductive AutoUpdateType
  | DontAutoUpdate
  | DefaultAutoUpdate
  | SpecificAutoUpdate
deriving DecidableEq, Repr

/-- The scheduling-relevant state of one feed (`Feed`/`StandardFeed`):
its id and its auto-update mode with the initial and remaining interval
counters (C++ `int`s, hence `Int`). -/
structure Feed where
  id : Int
  autoUpdateType : AutoUpdateType
  autoUpdateInitialInterval : Int
  autoUpdateRemainingInterval : Int
deriving DecidableEq, Repr

/-- `FeedsModel::feedsForScheduledUpdate(auto_update_now)`, embedded over the
list of feeds that `allFeeds()` yields in traversal order.  Returns the feeds
with their updated remaining-interval state (first component, in place) and
the list `feeds_for_update` of feeds selected for update (second component).
A selected `SpecificAutoUpdate` feed is appended to the output list and then
has its remaining interval reset, so the selected entry carries the reset
state, exactly as the shared object does in the source. -/
def feedsForScheduledUpdate (auto_update_now : Bool) : List Feed → List Feed × List Feed
  | [] => ([], [])
  | feed :: rest =>
    let tail := feedsForScheduledUpdate auto_update_now rest
    match feed.autoUpdateType with
    | .DontAutoUpdate =>
        -- Do not auto-update this feed ever.
        (feed :: tail.1, tail.2)
    | .DefaultAutoUpdate =>
        (feed :: tail.1, if auto_update_now then feed :: tail.2 else tail.2)
    | .SpecificAutoUpdate =>
        let remaining_interval := feed.autoUpdateRemainingInterval - 1
        if remaining_interval ≤ 0 then
          -- Interval of this feed passed: include it and reset the interval.
          let f := { feed with autoUpdateRemainingInterval := feed.autoUpdateInitialInterval }
          (f :: tail.1, f :: tail.2)
        else
          -- Interval did not pass: store the decrement, do not include.
          let f := { feed with autoUpdateRemainingInterval := remaining_interval }
          (f :: tail.1, tail.2)

/-- Spec-side description of how one decision pass transforms one feed:
`Disabled` and `UseGlobalInterval` feeds keep their state; a
`SpecificInterval` feed whose decremented remaining interval is ≤ 0 is reset
to its initial interval, otherwise the decremented value is stored. -/
def feedScheduleStep (feed : Feed) : Feed :=
  match feed.autoUpdateType with
  | .DontAutoUpdate => feed
  | .DefaultAutoUpdate => feed
  | .SpecificAutoUpdate =>
      if feed.autoUpdateRemainingInterval - 1 ≤ 0 then
        { feed with autoUpdateRemainingInterval := feed.autoUpdateInitialInterval }
      else
        { feed with autoUpdateRemainingInterval := feed.autoUpdateRemainingInterval - 1 }

/-- Spec-side description of which feeds a decision pass includes:
`Disabled` never, `UseGlobalInterval` iff the global interval elapsed,
`SpecificInterval` iff the decremented remaining interval is ≤ 0. -/
def feedIncluded (auto_update_now : Bool) (feed : Feed) : Bool :=
  match feed.autoUpdateType with
  | .DontAutoUpdate => false
  | .DefaultAutoUpdate => auto_update_now
  | .SpecificAutoUpdate => feed.autoUpdateRemainingInterval - 1 ≤ 0

/-! ## Bulk store transactions (`FeedsModel::markFeedsRead`, `markFeedsDeleted`) -/

/-- Answers of the external store adapter to the calls one bulk update makes:
`transaction()`, `prepare(...)`, `exec()`, `commit()`, `rollback()`.  The
adapter is an external collaborator, so every answer is an unconstrained
Boolean oracle. -/
structure DbOracle where
  transactionOk : Bool
  prepareOk : Bool
  execOk : Bool
  commitOk : Bool
  rollbackOk : Bool
deriving DecidableEq, Repr

/-- Store-adapter calls a bulk update can issue, in issue order.  The
`prepareQuery` event records whether the prepared `UPDATE` statement carries
the `is_read = 1` restriction (the `read_only` branch of
`markFeedsDeleted`). -/
inductive DbEvent
  | transactionStart
  | prepareQuery (restrict_to_read : Bool)
  | execQuery
  | rollback
  | commit
deriving DecidableEq, Repr

/-- `FeedsModel::markFeedsRead(feeds, read)` control flow: start a
transaction (fail ⇒ return false); prepare the bulk `UPDATE` (fail ⇒
rollback, return false); exec it — on failure the source rolls back but does
NOT return, so control still reaches the commit; finally commit, returning
true on commit success and the result of one more `rollback()` call on
commit failure.  Returns the trace of store calls and the returned Boolean. -/
def markFeedsRead (db : DbOracle) : List DbEvent × Bool :=
  if !db.transactionOk then
    ([.transactionStart], false)
  else if !db.prepareOk then
    ([.transactionStart, .prepareQuery false, .rollback], false)
  else if !db.execOk then
    -- Query execution failed: rollback, then fall through to the commit.
    if db.commitOk then
      ([.transactionStart, .prepareQuery false, .execQuery, .rollback, .commit], true)
    else
      ([.transactionStart, .prepareQuery false, .execQuery, .rollback, .commit, .rollback],
       db.rollbackOk)
  else
    if db.commitOk then
      ([.transactionStart, .prepareQuery false, .execQuery, .commit], true)
    else
      ([.transactionStart, .prepareQuery false, .execQuery, .commit, .rollback], db.rollbackOk)

/-- `FeedsModel::markFeedsDeleted(feeds, deleted, read_only)`: identical
control flow to `markFeedsRead`; `read_only` only selects which of the two
`UPDATE` statements is prepared (restricting to already-read messages), which
does not change the call structure. -/
def markFeedsDeleted (read_only : Bool) (db : DbOracle) : List DbEvent × Bool :=
  if !db.transactionOk then
    ([.transactionStart], false)
  else if !db.prepareOk then
    ([.transactionStart, .prepareQuery read_only, .rollback], false)
  else if !db.execOk then
    if db.commitOk then
      ([.transactionStart, .prepareQuery read_only, .execQuery, .rollback, .commit], true)
    else
      ([.transactionStart, .prepareQuery read_only, .execQuery, .rollback, .commit, .rollback],
       db.rollbackOk)
  else
    if db.commitOk then
      ([.transactionStart, .prepareQuery read_only, .execQuery, .commit], true)
    else
      ([.transactionStart, .prepareQuery read_only, .execQuery, .commit, .rollback], db.rollbackOk)

/-! ## Category assembly (`FeedsModel::assembleCategories`) -/

/-- Sentinel "no parent" id (`NO_PARENT_CATEGORY` in `definitions.h`): the id
the root item carries and the parent id of top-level rows. -/
def NO_PARENT_CATEGORY : Int := -1

/-- One row of the `Categories` table as `loadFromDatabase` collects it
(`CategoryAssignmentItem`): the declared parent id and the category's own
id.  The remaining record fields play no role in the assembly. -/
structure CategoryRow where
  parentId : Int
  catId : Int
deriving DecidableEq, Repr

/-- One left-to-right scan of the unresolved category list — the inner `for`
loop of `FeedsModel::assembleCategories`, whose remove-at-`i`-and-decrement
is equivalent to keeping the unattached rows: a row whose declared parent id
is already a key of `assignments` is attached (recorded as
`(catId, parentId)`) and its own id becomes a key, visible to the rows
scanned after it; the other rows stay unresolved. -/
def assemblePass (assigned : List Int) (attached : List (Int × Int)) :
    List CategoryRow → List Int × List (Int × Int) × List CategoryRow
  | [] => (assigned, attached, [])
  | row :: rest =>
    if row.parentId ∈ assigned then
      assemblePass (row.catId :: assigned) (attached ++ [(row.catId, row.parentId)]) rest
    else
      let tail := assemblePass assigned attached rest
      (tail.1, tail.2.1, row :: tail.2.2)

/-- The outer `while (!categories.isEmpty())` loop of `assembleCategories`,
with an explicit fuel bound on the number of scans: `none` means the fuel ran
out with categories still unresolved, i.e. the source loop runs at least that
many scans without finishing. -/
def assembleLoop : Nat → List Int → List (Int × Int) → List CategoryRow →
    Option (List Int × List (Int × Int))
  | _, assigned, attached, [] => some (assigned, attached)
  | 0, _, _, _ :: _ => none
  | Nat.succ fuel, assigned, attached, cats =>
    let scanned := assemblePass assigned attached cats
    assembleLoop fuel scanned.1 scanned.2.1 scanned.2.2

/-- `FeedsModel::assembleCategories(categories)`: the assignment map starts
with the root item keyed by `NO_PARENT_CATEGORY`, then the scan loop runs.
Returns the final key set and the attachment log, or `none` if `fuel` scans
did not empty the list. -/
def assembleCategories (fuel : Nat) (categories : List CategoryRow) :
    Option (List Int × List (Int × Int)) :=
  assembleLoop fuel [NO_PARENT_CATEGORY] [] categories

/-! ## Message list model (`MessagesModel`) -/

/-- Column indices of the `Messages` table, following the header order set up
in `MessagesModel::setupHeaderData` (`MSG_DB_*` constants): id, read,
deleted, important, ..., permanently-deleted at column 10. -/
def MSG_DB_ID_INDEX : Nat := 0

def MSG_DB_READ_INDEX : Nat := 1

def MSG_DB_DELETED_INDEX : Nat := 2

def MSG_DB_IMPORTANT_INDEX : Nat := 3

def MSG_DB_PDELETED_INDEX : Nat := 10

/-- A message row, as a map from column index to value.  All fields the core
logic reads (ids and flags) are integral; string columns are irrelevant to
the claims and also representable as integers without loss here. -/
def MsgRecord : Type := Nat → Int

/-- Value of a query-snapshot cell; an out-of-range read yields the invalid
`QVariant`, whose `toInt()` is 0. -/
def queryVal (query : List MsgRecord) (row col : Nat) : Int :=
  match query[row]? with
  | some r => r col
  | none => 0

/-- Overwrite one field of a record. -/
def recordUpd (r : MsgRecord) (col : Nat) (v : Int) : MsgRecord :=
  fun c => if c = col then v else r c

/-- State of `MessagesModel`: the backing `Messages` store, the current
filter (`selectStatement`), whether the selected node is the recycle bin
(the source tests this with `qobject_cast<RecycleBin*>` for the cache column
and with `kind() != RootItemKind::Bin` for the persistence branch, which
agree), the eagerly fetched query snapshot, and the pending-edit cache
keyed by row. -/
structure MsgModel where
  store : List MsgRecord
  flt : MsgRecord → Bool
  selectedIsBin : Bool
  query : List MsgRecord
  cache : Nat → Option MsgRecord

/-- `MessagesModel::data(idx, Qt::EditRole)`: consult the pending-edit cache
first, fall back to the live query result. -/
def dataEditRole (st : MsgModel) (row col : Nat) : Int :=
  match st.cache row with
  | some r => r col
  | none => queryVal st.query row col

/-- `MessagesModel::messageAt(row)`: the cached record when the cache holds
the row, else the live query record. -/
def messageAt (st : MsgModel) (row : Nat) : MsgRecord :=
  match st.cache row with
  | some r => r
  | none => fun c => queryVal st.query row c

/-- `MessagesModel::setData`: hands the edit to the pending-edit cache along
with the row's live query record, and always returns true.  Modelled from
the spec for the cache internals (`MessagesModelCache` is not under `src/`):
"the pending-edit cache is an overlay keyed by row" — the first edit of a
row initializes its cached record from the passed live record, later edits
update the already-cached record; the edited field is then overwritten. -/
def mSetData (st : MsgModel) (row col : Nat) (v : Int) : MsgModel :=
  { st with
    cache := fun rw =>
      if rw = row then
        some (recordUpd ((st.cache row).getD (fun c => queryVal st.query row c)) col v)
      else st.cache rw }

/-- `MessagesModel::repopulate()`: clear the pending-edit cache, re-run the
select statement and eagerly fetch every row. -/
def repopulate (st : MsgModel) : MsgModel :=
  { st with cache := fun _ => none, query := st.store.filter st.flt }

/-- The bulk store operations a message mutation can invoke
(`DatabaseQueries`, an external collaborator). -/
inductive StoreOp
  | markReadUnread
  | markImportant
  | moveToBin
  | restoreFromBin
  | purge
deriving DecidableEq, Repr

/-- Calls a `MessagesModel` mutation issues, in issue order: pending-edit
cache writes, before/after hooks on the owning service, and bulk store
updates. -/
inductive MEvent
  | cacheWrite (row col : Nat) (value : Int)
  | beforeHook
  | afterHook
  | dbUpdate (op : StoreOp)
deriving DecidableEq, Repr

/-- Modelled from the spec: `DatabaseQueries::markMessagesReadUnread` (not
under `src/`) — "bulk update message flags": set `is_read` on the rows with
the given ids. -/
def storeMarkRead (store : List MsgRecord) (ids : List Int) (read : Int) : List MsgRecord :=
  store.map fun r =>
    if r MSG_DB_ID_INDEX ∈ ids then recordUpd r MSG_DB_READ_INDEX read else r

/-- Modelled from the spec: `DatabaseQueries::markMessageImportant` — set the
`important` flag on the row with the given id. -/
def storeMarkImportant (store : List MsgRecord) (msgId imp : Int) : List MsgRecord :=
  store.map fun r =>
    if r MSG_DB_ID_INDEX = msgId then recordUpd r MSG_DB_IMPORTANT_INDEX imp else r

/-- Modelled from the spec:
`DatabaseQueries::deleteOrRestoreMessagesToFromBin(db, ids, deleted)` — move
to bin sets `is_deleted`; a restore clears both deleted flags. -/
def storeDeleteRestore (store : List MsgRecord) (ids : List Int) (deleted : Bool) :
    List MsgRecord :=
  store.map fun r =>
    if r MSG_DB_ID_INDEX ∈ ids then
      if deleted then recordUpd r MSG_DB_DELETED_INDEX 1
      else recordUpd (recordUpd r MSG_DB_DELETED_INDEX 0) MSG_DB_PDELETED_INDEX 0
    else r

/-- Modelled from the spec: `DatabaseQueries::permanentlyDeleteMessages` —
purge beyond recovery ("permanently-deleted flag set, per store policy"). -/
def storePurge (store : List MsgRecord) (ids : List Int) : List MsgRecord :=
  store.map fun r =>
    if r MSG_DB_ID_INDEX ∈ ids then recordUpd r MSG_DB_PDELETED_INDEX 1 else r

/-- `MessagesModel::setMessageRead(row_index, read)`: return true at once if
the read status already matches; otherwise capture the message, invoke the
before-hook FIRST (a veto returns false with no cache write), only then
rewrite the cache through `setData` (which always returns true), persist,
and on persistence success return the after-hook's result. -/
def setMessageRead (st : MsgModel) (row : Nat) (read : Int)
    (beforeOk persistOk afterOk : Bool) : MsgModel × Bool × List MEvent :=
  if dataEditRole st row MSG_DB_READ_INDEX = read then
    (st, true, [])
  else
    let message_id := messageAt st row MSG_DB_ID_INDEX
    if !beforeOk then
      (st, false, [.beforeHook])
    else
      let st1 := mSetData st row MSG_DB_READ_INDEX read
      if persistOk then
        ({ st1 with store := storeMarkRead st1.store [message_id] read }, afterOk,
         [.beforeHook, .cacheWrite row MSG_DB_READ_INDEX read,
          .dbUpdate .markReadUnread, .afterHook])
      else
        (st1, false,
         [.beforeHook, .cacheWrite row MSG_DB_READ_INDEX read, .dbUpdate .markReadUnread])

/-- `MessagesModel::switchMessageImportance(row_index)`: toggle
Important (1) ↔ NotImportant (0); like `setMessageRead`, the before-hook is
invoked BEFORE the cache rewrite. -/
def switchMessageImportance (st : MsgModel) (row : Nat)
    (beforeOk persistOk afterOk : Bool) : MsgModel × Bool × List MEvent :=
  let current := dataEditRole st row MSG_DB_IMPORTANT_INDEX
  let next : Int := if current = 1 then 0 else 1
  let message_id := messageAt st row MSG_DB_ID_INDEX
  if !beforeOk then
    (st, false, [.beforeHook])
  else
    let st1 := mSetData st row MSG_DB_IMPORTANT_INDEX next
    if persistOk then
      ({ st1 with store := storeMarkImportant st1.store message_id next }, afterOk,
       [.beforeHook, .cacheWrite row MSG_DB_IMPORTANT_INDEX next,
        .dbUpdate .markImportant, .afterHook])
    else
      (st1, false,
       [.beforeHook, .cacheWrite row MSG_DB_IMPORTANT_INDEX next, .dbUpdate .markImportant])

/-- The id-collection/optimistic-rewrite loop shared by the batch mutations:
for each affected row, capture the message id (through `messageAt`, which
sees the cache writes of earlier iterations), then rewrite `col` to `v` in
the cache.  Returns the final state, the captured ids in order, and the
cache-write events in order. -/
def batchCollectWrite (col : Nat) (v : Int) :
    MsgModel → List Nat → MsgModel × List Int × List MEvent
  | st, [] => (st, [], [])
  | st, row :: rest =>
    let message_id := messageAt st row MSG_DB_ID_INDEX
    let st1 := mSetData st row col v
    let tail := batchCollectWrite col v st1 rest
    (tail.1, message_id :: tail.2.1, .cacheWrite row col v :: tail.2.2)

/-- `MessagesModel::setBatchMessagesRead(messages, read)`: optimistic cache
rewrite of every affected row FIRST, then the before-hook (a veto returns
false and leaves the optimistic writes in place), then the bulk persist, and
on persistence success the after-hook's result. -/
def setBatchMessagesRead (st : MsgModel) (rows : List Nat) (read : Int)
    (beforeOk persistOk afterOk : Bool) : MsgModel × Bool × List MEvent :=
  let collected := batchCollectWrite MSG_DB_READ_INDEX read st rows
  let st1 := collected.1
  if !beforeOk then
    (st1, false, collected.2.2 ++ [.beforeHook])
  else if persistOk then
    ({ st1 with store := storeMarkRead st1.store collected.2.1 read }, afterOk,
     collected.2.2 ++ [.beforeHook, .dbUpdate .markReadUnread, .afterHook])
  else
    (st1, false, collected.2.2 ++ [.beforeHook, .dbUpdate .markReadUnread])

/-- `MessagesModel::setBatchMessagesDeleted(messages)`: marks
permanently-deleted (recycle-bin view) or soft-deleted (otherwise) in the
cache for every affected row, then before-hook, then persists via
move-to-bin or purge depending on the view, then after-hook. -/
def setBatchMessagesDeleted (st : MsgModel) (rows : List Nat)
    (beforeOk persistOk afterOk : Bool) : MsgModel × Bool × List MEvent :=
  let col := if st.selectedIsBin then MSG_DB_PDELETED_INDEX else MSG_DB_DELETED_INDEX
  let collected := batchCollectWrite col 1 st rows
  let st1 := collected.1
  if !beforeOk then
    (st1, false, collected.2.2 ++ [.beforeHook])
  else
    let op := if st.selectedIsBin then StoreOp.purge else StoreOp.moveToBin
    if persistOk then
      ({ st1 with
         store := if st.selectedIsBin then storePurge st1.store collected.2.1
                  else storeDeleteRestore st1.store collected.2.1 true }, afterOk,
       collected.2.2 ++ [.beforeHook, .dbUpdate op, .afterHook])
    else
      (st1, false, collected.2.2 ++ [.beforeHook, .dbUpdate op])

/-- The collection loop of `setBatchMessagesRestored`: per row, capture the
id, then clear permanently-deleted and soft-deleted in the cache (two
`setData` calls in that order). -/
def batchCollectRestore : MsgModel → List Nat → MsgModel × List Int × List MEvent
  | st, [] => (st, [], [])
  | st, row :: rest =>
    let message_id := messageAt st row MSG_DB_ID_INDEX
    let st1 := mSetData st row MSG_DB_PDELETED_INDEX 0
    let st2 := mSetData st1 row MSG_DB_DELETED_INDEX 0
    let tail := batchCollectRestore st2 rest
    (tail.1, message_id :: tail.2.1,
     .cacheWrite row MSG_DB_PDELETED_INDEX 0 :: .cacheWrite row MSG_DB_DELETED_INDEX 0
       :: tail.2.2)

/-- `MessagesModel::setBatchMessagesRestored(messages)`: clears both deleted
flags in the cache for every affected row, then before-hook, then persists
the restore, then after-hook. -/
def setBatchMessagesRestored (st : MsgModel) (rows : List Nat)
    (beforeOk persistOk afterOk : Bool) : MsgModel × Bool × List MEvent :=
  let collected := batchCollectRestore st rows
  let st1 := collected.1
  if !beforeOk then
    (st1, false, collected.2.2 ++ [.beforeHook])
  else if persistOk then
    ({ st1 with store := storeDeleteRestore st1.store collected.2.1 false }, afterOk,
     collected.2.2 ++ [.beforeHook, .dbUpdate .restoreFromBin, .afterHook])
  else
    (st1, false, collected.2.2 ++ [.beforeHook, .dbUpdate .restoreFromBin])

/-- The lookup-by-id scan shared by `setMessageReadById` and
`setMessageImportantById`: walk the current row set in order; at the first
row whose id cell (cache over query) matches, rewrite `col` in the cache —
`setData` always returns true, so the scan returns true — otherwise return
false with nothing changed.  No store update and no hook is ever issued. -/
def scanSetById (st : MsgModel) (col : Nat) (msgId v : Int) :
    List Nat → MsgModel × Bool × List MEvent
  | [] => (st, false, [])
  | i :: rest =>
    if dataEditRole st i MSG_DB_ID_INDEX = msgId then
      (mSetData st i col v, true, [.cacheWrite i col v])
    else
      scanSetById st col msgId v rest

/-- `MessagesModel::setMessageReadById(id, read)`. -/
def setMessageReadById (st : MsgModel) (msgId read : Int) : MsgModel × Bool × List MEvent :=
  scanSetById st MSG_DB_READ_INDEX msgId read (List.range st.query.length)

/-- `MessagesModel::setMessageImportantById(id, important)`. -/
def setMessageImportantById (st : MsgModel) (msgId imp : Int) :
    MsgModel × Bool × List MEvent :=
  scanSetById st MSG_DB_IMPORTANT_INDEX msgId imp (List.range st.query.length)

/-! ## Feed tree (`RootItem` and `FeedsModel` structural mutations) -/

/-- The closed node-variant set of the feed hierarchy (`RootItem::Kind`,
with the source's spellings `Cattegory` and `Feeed`). -/
inductive RootItemKind
  | Root
  | Cattegory
  | Feeed
  | Bin
deriving DecidableEq, Repr

/-- A node of the feed hierarchy: kind tag, id, title and the ordered child
sequence (insertion order = display order).  Kind-specific payload beyond
the id/title plays no role in the structural claims. -/
inductive TreeItem where
  | node (kind : RootItemKind) (itemId : Int) (title : String) (children : List TreeItem)

def TreeItem.kind : TreeItem → RootItemKind
  | .node k _ _ _ => k

def TreeItem.itemId : TreeItem → Int
  | .node _ i _ _ => i

def TreeItem.title : TreeItem → String
  | .node _ _ ti _ => ti

def TreeItem.childItems : TreeItem → List TreeItem
  | .node _ _ _ cs => cs

def TreeItem.childCount (t : TreeItem) : Nat :=
  t.childItems.length

/-- Modelled from the spec: `RootItem::appendChild` (not under `src/`) —
"adds to end of child sequence; sets back-reference". -/
def TreeItem.appendChild : TreeItem → TreeItem → TreeItem
  | .node k id ti cs, c => .node k id ti (cs ++ [c])

/-- Modelled from the spec: `RootItem::removeChild` (not under `src/`) —
"removes by identity from child sequence"; with path/index addressing the
identity of a child is its position. -/
def TreeItem.removeChildIdx : TreeItem → Nat → TreeItem
  | .node k id ti cs, i => .node k id ti (cs.eraseIdx i)

/-- Replace the element at one index, leaving the list unchanged when the
index is out of range. -/
def listModify {α : Type} (g : α → α) : Nat → List α → List α
  | _, [] => []
  | 0, x :: xs => g x :: xs
  | n + 1, x :: xs => x :: listModify g n xs

/-- Rewrite the node a child-index path points at. -/
def updAt : List Nat → (TreeItem → TreeItem) → TreeItem → TreeItem
  | [], f, t => f t
  | i :: p, f, .node k id ti cs => .node k id ti (listModify (updAt p f) i cs)

/-- Resolve a child-index path. -/
def getAt : List Nat → TreeItem → Option TreeItem
  | [], t => some t
  | i :: p, t =>
    match t.childItems[i]? with
    | some c => getAt p c
    | none => none

/-- Two paths diverge when neither continues the other: they part ways at
some index. -/
def divergent : List Nat → List Nat → Bool
  | [], _ => false
  | _ :: _, [] => false
  | i :: p, j :: q => if i = j then divergent p q else true

/-- `FeedsModel::removeItem(index)`: resolve the node behind the index (an
invalid index leaves everything unchanged); ask it to `removeItself()`
persistently (the oracle); only on success detach it from its parent and
free it, else the tree is untouched and false is returned. -/
def removeItem (persistOk : Bool) (t : TreeItem) (parentPath : List Nat) (i : Nat) :
    TreeItem × Bool :=
  match getAt (parentPath ++ [i]) t with
  | none => (t, false)
  | some _ =>
    if persistOk then (updAt parentPath (fun n => n.removeChildIdx i) t, true)
    else (t, false)

/-- `FeedsModel::addCategory(category, parent)`: let the candidate persist
itself under the parent (`addItself`, the oracle); on success append it as
the parent's last child, on failure the candidate is destroyed and the tree
is unchanged. -/
def addCategory (persistOk : Bool) (t : TreeItem) (parentPath : List Nat)
    (category : TreeItem) : TreeItem × Bool :=
  if persistOk then (updAt parentPath (fun n => n.appendChild category) t, true)
  else (t, false)

/-- `FeedsModel::addFeed(feed, parent)`: same contract as `addCategory`. -/
def addFeed (persistOk : Bool) (t : TreeItem) (parentPath : List Nat)
    (feed : TreeItem) : TreeItem × Bool :=
  if persistOk then (updAt parentPath (fun n => n.appendChild feed) t, true)
  else (t, false)

/-- `FeedsModel::reassignNodeToNewParent(node, new_parent)`: a no-op when
the node is already under the new parent (or the path does not resolve or
names the root); otherwise detach the node from its original parent and
append it under the new parent. -/
def reassignNodeToNewParent (t : TreeItem) (nodePath newParentPath : List Nat) : TreeItem :=
  match getAt nodePath t with
  | none => t
  | some original_node =>
    if nodePath.dropLast = newParentPath then t
    else
      match nodePath.getLast? with
      | none => t
      | some j =>
        updAt newParentPath (fun n => n.appendChild original_node)
          (updAt nodePath.dropLast (fun n => n.removeChildIdx j) t)

/-- The structural mutations of the feed tree model, with the persistence
oracle's answer attached to the fallible ones. -/
inductive FeedsOp
  | addCat (parentPath : List Nat) (catId : Int) (title : String) (ok : Bool)
  | addFd (parentPath : List Nat) (feedId : Int) (title : String) (ok : Bool)
  | removeIt (parentPath : List Nat) (idx : Nat) (ok : Bool)
  | reassign (nodePath : List Nat) (newParentPath : List Nat)

/-- Run one structural mutation, returning the new tree and the reported
result (`reassignNodeToNewParent` returns nothing in the source). -/
def applyOp (t : TreeItem) : FeedsOp → TreeItem × Bool
  | .addCat p cid ti ok => addCategory ok t p (.node .Cattegory cid ti [])
  | .addFd p fid ti ok => addFeed ok t p (.node .Feeed fid ti [])
  | .removeIt p i ok => removeItem ok t p i
  | .reassign np newp => (reassignNodeToNewParent t np newp, true)

/-- Run a sequence of structural mutations. -/
def applyOps (t : TreeItem) : List FeedsOp → TreeItem
  | [] => t
  | op :: ops => applyOps (applyOp t op).1 ops

/-- The claimed invariant: the last child of the (root) node is the recycle
bin. -/
def binIsLastChild (t : TreeItem) : Bool :=
  decide ((t.childItems.map TreeItem.kind).getLast? = some RootItemKind.Bin)

/-- Conditions under which one mutation respects the bin-last invariant:
adds must target a non-root parent, a root-level removal must not remove
the bin, and a reassign must re-attach below a non-root parent and must not
move the bin itself. -/
def opSafe (t : TreeItem) : FeedsOp → Prop
  | .addCat p _ _ _ => p ≠ []
  | .addFd p _ _ _ => p ≠ []
  | .removeIt p i _ =>
    p ≠ [] ∨ ∀ n, getAt [i] t = some n → n.kind ≠ RootItemKind.Bin
  | .reassign np newp =>
    newp ≠ [] ∧
      ∀ j n, np = [j] → getAt [j] t = some n → n.kind ≠ RootItemKind.Bin

/-- A sequence of mutations each safe for the tree it actually runs on. -/
def SafeSeq : TreeItem → List FeedsOp → Prop
  | _, [] => True
  | t, op :: ops => opSafe t op ∧ SafeSeq (applyOp t op).1 ops

/-- Modelled from the spec: the recycle-bin node (`RecycleBin`, not under
`src/`) with its sentinel id. -/
def recycleBinItem : TreeItem :=
  .node .Bin (-2) "Recycle bin" []

/-- The tree `loadFromDatabase` ends with: the root node carrying the
assembled categories and feeds followed by the recycle bin as the last
child. -/
def loadedRoot (assembled : List TreeItem) : TreeItem :=
  .node .Root NO_PARENT_CATEGORY "Root" (assembled ++ [recycleBinItem])

/-- A concrete category node used to instantiate the tree theorems. -/
def sampleCategory : TreeItem :=
  .node .Cattegory 1 "News" []

/-! ## Tree merge (`FeedsModel::mergeModel`) -/

/-- A node of the import-source tree (`FeedsImportExportModel`): like a tree
node but carrying the "checked for import" mark the import dialog sets.
Modelled from the spec for the check mark (`isItemChecked` is not under
`src/`): items not marked checked, and their entire descendant subtrees, are
skipped. -/
inductive SourceItem where
  | node (kind : RootItemKind) (itemId : Int) (title : String) (checked : Bool)
      (children : List SourceItem)

def SourceItem.kind : SourceItem → RootItemKind
  | .node k _ _ _ _ => k

def SourceItem.itemId : SourceItem → Int
  | .node _ i _ _ _ => i

def SourceItem.title : SourceItem → String
  | .node _ _ ti _ _ => ti

def SourceItem.checked : SourceItem → Bool
  | .node _ _ _ c _ => c

def SourceItem.childItems : SourceItem → List SourceItem
  | .node _ _ _ _ cs => cs

/-- Modelled from the spec: `RootItem::child(kind, title)` (not under
`src/`) — the first child of the given kind carrying the given title, as an
index into the child sequence. -/
def findChildIdx (parent : TreeItem) (k : RootItemKind) (ti : String) : Option Nat :=
  parent.childItems.findIdx? (fun c => c.kind == k && c.title == ti)

/-- Cloning a source item without its children (`new StandardCategory(*src)`
followed by `clearChildren()`, and likewise `new StandardFeed(*src)`):
kind, id and title survive, the child list does not. -/
def cloneShell (s : SourceItem) : TreeItem :=
  .node s.kind s.itemId s.title []

/-- The evolving state of one `mergeModel` run: the target tree, how many
persist-add attempts were made so far (indexing the oracle of `addItself`
answers), and the `some_feed_category_error` flag. -/
structure MergeState where
  target : TreeItem
  counter : Nat
  failed : Bool

/-- Processing of one checked-for-import child of the current source parent
(the body of the `foreach` in `FeedsModel::mergeModel`): a category is
cloned shell-only and persist-added under the target parent — on success the
clone (appended as the parent's last child) is pushed for descent; on
failure an existing same-kind same-title child of the target parent is
searched, and descent continues into it if found, else the partial-failure
flag is raised and the branch's descendants are dropped.  A feed is cloned
and persist-added; failure raises the flag and processing continues.  An
unchecked item is skipped with its whole subtree. -/
def mergeChild (oracle : Nat → Bool) (tp : List Nat) (st : MergeState) (s : SourceItem) :
    MergeState × List (List Nat × SourceItem) :=
  if !s.checked then (st, [])
  else
    match s.kind with
    | .Cattegory =>
      let ok := oracle st.counter
      let st' : MergeState := { st with counter := st.counter + 1 }
      if ok then
        match getAt tp st.target with
        | some parent =>
          ({ st' with target := updAt tp (fun n => n.appendChild (cloneShell s)) st.target },
           [(tp ++ [parent.childCount], s)])
        | none => (st', [])
      else
        match getAt tp st.target with
        | some parent =>
          match findChildIdx parent .Cattegory s.title with
          | some j => (st', [(tp ++ [j], s)])
          | none => ({ st' with failed := true }, [])
        | none => ({ st' with failed := true }, [])
    | .Feeed =>
      let ok := oracle st.counter
      let st' : MergeState := { st with counter := st.counter + 1 }
      if ok then
        ({ st' with target := updAt tp (fun n => n.appendChild (cloneShell s)) st.target }, [])
      else
        ({ st' with failed := true }, [])
    | _ => (st, [])

/-- The `foreach` over the current source parent's children, accumulating
the pairs pushed for later descent in push order. -/
def mergeChildren (oracle : Nat → Bool) (tp : List Nat) :
    MergeState → List SourceItem → MergeState × List (List Nat × SourceItem)
  | st, [] => (st, [])
  | st, s :: rest =>
    let step := mergeChild oracle tp st s
    let tail := mergeChildren oracle tp step.1 rest
    (tail.1, step.2 ++ tail.2)

/-- The `while (!new_parents.isEmpty())` loop over the two parallel stacks,
rendered as one stack of (target-parent path, source parent) pairs — the
source pushes and pops the two stacks strictly in step.  LIFO order: pairs
pushed during one iteration are processed newest-first, on top of the
remaining stack.  Fuel bounds the number of iterations; `sourceSize` fuel
always suffices (proved below). -/
def mergeLoopF (oracle : Nat → Bool) :
    Nat → MergeState → List (List Nat × SourceItem) → Option MergeState
  | _, st, [] => some st
  | 0, _, _ :: _ => none
  | Nat.succ fuel, st, (tp, sp) :: rest =>
    let step := mergeChildren oracle tp st sp.childItems
    mergeLoopF oracle fuel step.1 (step.2.reverse ++ rest)

/-- `tr("Import was completely successfull.")`. -/
def fullSuccessMsg : String := "Import was completely successfull."

/-- `tr("Import successfull, but some feeds/categories were not imported due
to error.")`. -/
def partialFailureMsg : String :=
  "Import successfull, but some feeds/categories were not imported due to error."

/-- `FeedsModel::mergeModel(model, output_message)`: walk both trees from
their roots, then report overall success iff no partial failure was
recorded, together with the outcome message. -/
def mergeModel (oracle : Nat → Bool) (fuel : Nat) (target : TreeItem)
    (sourceRoot : SourceItem) : Option (TreeItem × Bool × String) :=
  (mergeLoopF oracle fuel ⟨target, 0, false⟩ [([], sourceRoot)]).map fun st =>
    (st.target, !st.failed, if st.failed then partialFailureMsg else fullSuccessMsg)

mutual

/-- Size of a source tree, bounding the number of merge-loop iterations. -/
def sourceSize : SourceItem → Nat
  | .node _ _ _ _ cs => 1 + sourceSizeL cs

/-- Total size of a list of source trees. -/
def sourceSizeL : List SourceItem → Nat
  | [] => 0
  | c :: cs => sourceSize c + sourceSizeL cs

end

/-- Total size of the source components of a merge stack. -/
def stackWeight (stack : List (List Nat × SourceItem)) : Nat :=
  (stack.map (fun pr => sourceSize pr.2)).sum

/-- A concrete merge target: a root holding a category titled "News" and the
recycle bin. -/
def mergeTarget : TreeItem :=
  .node .Root (-1) "Root" [sampleCategory, recycleBinItem]

/-- A concrete import source: a checked category "News" holding a checked
feed "BBC". -/
def mergeSourceA : SourceItem :=
  .node .Root 0 "Root" true
    [.node .Cattegory 5 "News" true [.node .Feeed 6 "BBC" true []]]

/-- A concrete import source: like `mergeSourceA` plus a checked top-level
feed "CNN". -/
def mergeSourceB : SourceItem :=
  .node .Root 0 "Root" true
    [.node .Cattegory 5 "News" true [.node .Feeed 6 "BBC" true []],
     .node .Feeed 7 "CNN" true []]

/-- Persist-add answers for scenario A: the first attempt (the "News"
category, which collides) fails, everything after succeeds. -/
def mergeOracleA : Nat → Bool := fun n => decide (n ≠ 0)

/-- Persist-add answers for scenario B: the "News" category (attempt 0,
collides with the existing one) and the "CNN" feed (attempt 1) fail, the
"BBC" feed (attempt 2) succeeds. -/
def mergeOracleB : Nat → Bool := fun n => decide (2 ≤ n)

/-- The expected merged target of both scenarios: "BBC" attached under the
already-existing "News" category, no duplicate category. -/
def mergedTargetExpected : TreeItem :=
  .node .Root (-1) "Root"
    [.node .Cattegory 1 "News" [.node .Feeed 6 "BBC" []], recycleBinItem]

/-- A one-row sample model: message id 7, all flags 0, empty cache. -/
def sampleRecord : MsgRecord :=
  fun c => if c = MSG_DB_ID_INDEX then 7 else 0

/-- A concrete `MsgModel` used to instantiate the message-model theorems. -/
def sampleModel : MsgModel :=
  { store := [sampleRecord]
    flt := fun _ => true
    selectedIsBin := false
    query := [sampleRecord]
    cache := fun _ => none }

end RssGuard

namespace RssGuard

/-! ## Theorems -/

/-- Helper for C2: a scan pass over a list none of whose rows has its parent
in the assigned key set changes nothing. -/
theorem assemblePass_stuck (assigned : List Int) (attached : List (Int × Int))
    (cats : List CategoryRow) (h : ∀ row ∈ cats, row.parentId ∉ assigned) :
    assemblePass assigned attached cats = (assigned, attached, cats) := by
  induction cats with
  | nil => rfl
  | cons row rest ih =>
    have hrow := h row (List.mem_cons_self row rest)
    have hrest := ih (fun r hr => h r (List.mem_cons_of_mem row hr))
    simp [assemblePass, hrow, hrest]

/-- Helper: reading a cell only depends on the row's cache entry and the
query snapshot. -/
theorem dataEditRole_ext {st st' : MsgModel} (row col : Nat)
    (h1 : st'.cache row = st.cache row) (h2 : st'.query = st.query) :
    dataEditRole st' row col = dataEditRole st row col := by
  simp [dataEditRole, queryVal, h1, h2]

/-- Helper: the cell just written through `setData` reads back the new
value. -/
theorem dataEditRole_mSetData_self (st : MsgModel) (row col : Nat) (v : Int) :
    dataEditRole (mSetData st row col v) row col = v := by
  simp [dataEditRole, mSetData, recordUpd]

/-- Helper: writing one cell through `setData` does not change the reads of
any other column. -/
theorem dataEditRole_mSetData_other_col (st : MsgModel) (row col : Nat) (v : Int)
    (r c : Nat) (hc : c ≠ col) :
    dataEditRole (mSetData st row col v) r c = dataEditRole st r c := by
  by_cases hr : r = row
  · subst hr
    cases hcc : st.cache r <;>
      simp [dataEditRole, mSetData, recordUpd, queryVal, hc, hcc]
  · simp [dataEditRole, mSetData, hr]

/-- Helper: writing one cell through `setData` does not change the reads of
any other row. -/
theorem dataEditRole_mSetData_other_row (st : MsgModel) (row col : Nat) (v : Int)
    (r c : Nat) (hr : r ≠ row) :
    dataEditRole (mSetData st row col v) r c = dataEditRole st r c := by
  simp [dataEditRole, mSetData, hr]

/-- Helper: the batch collection loop never touches the backing store. -/
theorem batchCollectWrite_store (col : Nat) (v : Int) (st : MsgModel) (rows : List Nat) :
    (batchCollectWrite col v st rows).1.store = st.store := by
  induction rows generalizing st with
  | nil => rfl
  | cons row rest ih => simpa [batchCollectWrite, mSetData] using ih (mSetData st row col v)

/-- Helper: the batch collection loop never touches the query snapshot. -/
theorem batchCollectWrite_query (col : Nat) (v : Int) (st : MsgModel) (rows : List Nat) :
    (batchCollectWrite col v st rows).1.query = st.query := by
  induction rows generalizing st with
  | nil => rfl
  | cons row rest ih => simpa [batchCollectWrite, mSetData] using ih (mSetData st row col v)

/-- Helper: the batch collection loop emits exactly one cache write per
affected row, in order. -/
theorem batchCollectWrite_events (col : Nat) (v : Int) (st : MsgModel) (rows : List Nat) :
    (batchCollectWrite col v st rows).2.2
      = rows.map (fun r => MEvent.cacheWrite r col v) := by
  induction rows generalizing st with
  | nil => rfl
  | cons row rest ih => simp [batchCollectWrite, ih]

/-- Helper: rows not in the batch keep their cache entry. -/
theorem batchCollectWrite_cache_notMem (col : Nat) (v : Int) (st : MsgModel)
    (rows : List Nat) (r : Nat) (hr : r ∉ rows) :
    (batchCollectWrite col v st rows).1.cache r = st.cache r := by
  induction rows generalizing st with
  | nil => rfl
  | cons row rest ih =>
    have hne : r ≠ row := fun h => hr (h ▸ List.mem_cons_self row rest)
    have hnr : r ∉ rest := fun h => hr (List.mem_cons_of_mem row h)
    calc (batchCollectWrite col v (mSetData st row col v) rest).1.cache r
        = (mSetData st row col v).cache r := ih (mSetData st row col v) hnr
      _ = st.cache r := by simp [mSetData, hne]

/-- Helper: every affected row reads the written value back after the batch
collection loop. -/
theorem batchCollectWrite_read (col : Nat) (v : Int) (st : MsgModel)
    (rows : List Nat) (r : Nat) (hr : r ∈ rows) :
    dataEditRole (batchCollectWrite col v st rows).1 r col = v := by
  induction rows generalizing st with
  | nil => cases hr
  | cons row rest ih =>
    by_cases hmem : r ∈ rest
    · exact ih (mSetData st row col v) hmem
    · have hr0 : r = row := by
        rcases List.mem_cons.mp hr with h | h
        · exact h
        · exact absurd h hmem
      subst hr0
      have hcache := batchCollectWrite_cache_notMem col v (mSetData st r col v) rest r hmem
      have hquery := batchCollectWrite_query col v (mSetData st r col v) rest
      calc dataEditRole (batchCollectWrite col v st (r :: rest)).1 r col
          = dataEditRole (batchCollectWrite col v (mSetData st r col v) rest).1 r col := rfl
        _ = dataEditRole (mSetData st r col v) r col :=
            dataEditRole_ext r col hcache hquery
        _ = v := dataEditRole_mSetData_self st r col v

/-- Helper: the batch collection loop leaves every other column's reads
unchanged, on every row. -/
theorem batchCollectWrite_read_other (col : Nat) (v : Int) (st : MsgModel)
    (rows : List Nat) (r c : Nat) (hc : c ≠ col) :
    dataEditRole (batchCollectWrite col v st rows).1 r c = dataEditRole st r c := by
  induction rows generalizing st with
  | nil => rfl
  | cons row rest ih =>
    calc dataEditRole (batchCollectWrite col v (mSetData st row col v) rest).1 r c
        = dataEditRole (mSetData st row col v) r c := ih (mSetData st row col v)
      _ = dataEditRole st r c := dataEditRole_mSetData_other_col st row col v r c hc

/-- Helper: the restore collection loop never touches the backing store. -/
theorem batchCollectRestore_store (st : MsgModel) (rows : List Nat) :
    (batchCollectRestore st rows).1.store = st.store := by
  induction rows generalizing st with
  | nil => rfl
  | cons row rest ih =>
    simpa [batchCollectRestore, mSetData] using
      ih (mSetData (mSetData st row MSG_DB_PDELETED_INDEX 0) row MSG_DB_DELETED_INDEX 0)

/-- Helper: the restore collection loop never touches the query snapshot. -/
theorem batchCollectRestore_query (st : MsgModel) (rows : List Nat) :
    (batchCollectRestore st rows).1.query = st.query := by
  induction rows generalizing st with
  | nil => rfl
  | cons row rest ih =>
    simpa [batchCollectRestore, mSetData] using
      ih (mSetData (mSetData st row MSG_DB_PDELETED_INDEX 0) row MSG_DB_DELETED_INDEX 0)

/-- Helper: rows not in the restore batch keep their cache entry. -/
theorem batchCollectRestore_cache_notMem (st : MsgModel) (rows : List Nat) (r : Nat)
    (hr : r ∉ rows) :
    (batchCollectRestore st rows).1.cache r = st.cache r := by
  induction rows generalizing st with
  | nil => rfl
  | cons row rest ih =>
    have hne : r ≠ row := fun h => hr (h ▸ List.mem_cons_self row rest)
    have hnr : r ∉ rest := fun h => hr (List.mem_cons_of_mem row h)
    calc (batchCollectRestore st (row :: rest)).1.cache r
        = (mSetData (mSetData st row MSG_DB_PDELETED_INDEX 0) row MSG_DB_DELETED_INDEX 0).cache
            r := ih _ hnr
      _ = st.cache r := by simp [mSetData, hne]

/-- Helper: every affected row reads both deleted flags as 0 after the
restore collection loop. -/
theorem batchCollectRestore_read (st : MsgModel) (rows : List Nat) (r : Nat)
    (hr : r ∈ rows) :
    dataEditRole (batchCollectRestore st rows).1 r MSG_DB_DELETED_INDEX = 0 ∧
    dataEditRole (batchCollectRestore st rows).1 r MSG_DB_PDELETED_INDEX = 0 := by
  induction rows generalizing st with
  | nil => cases hr
  | cons row rest ih =>
    by_cases hmem : r ∈ rest
    · exact ih _ hmem
    · have hr0 : r = row := by
        rcases List.mem_cons.mp hr with h | h
        · exact h
        · exact absurd h hmem
      subst hr0
      have hst2 :
          (batchCollectRestore st (r :: rest)).1
            = (batchCollectRestore
                (mSetData (mSetData st r MSG_DB_PDELETED_INDEX 0) r MSG_DB_DELETED_INDEX 0)
                rest).1 := rfl
      have hcache := batchCollectRestore_cache_notMem
        (mSetData (mSetData st r MSG_DB_PDELETED_INDEX 0) r MSG_DB_DELETED_INDEX 0) rest r hmem
      have hquery := batchCollectRestore_query
        (mSetData (mSetData st r MSG_DB_PDELETED_INDEX 0) r MSG_DB_DELETED_INDEX 0) rest
      rw [hst2, dataEditRole_ext r MSG_DB_DELETED_INDEX hcache hquery,
          dataEditRole_ext r MSG_DB_PDELETED_INDEX hcache hquery]
      constructor
      · exact dataEditRole_mSetData_self _ r MSG_DB_DELETED_INDEX 0
      · rw [dataEditRole_mSetData_other_col _ r MSG_DB_DELETED_INDEX 0 r MSG_DB_PDELETED_INDEX
            (by decide)]
        exact dataEditRole_mSetData_self st r MSG_DB_PDELETED_INDEX 0

/-- Helper: the lookup-by-id scan either finds no matching row and changes
nothing, or stops at a matching row, writes its cache cell, and returns
true. -/
theorem scanSetById_cases (st : MsgModel) (col : Nat) (msgId v : Int)
    (idxs : List Nat) :
    (scanSetById st col msgId v idxs = (st, false, []) ∧
      ∀ i ∈ idxs, dataEditRole st i MSG_DB_ID_INDEX ≠ msgId) ∨
    (∃ i ∈ idxs, dataEditRole st i MSG_DB_ID_INDEX = msgId ∧
      scanSetById st col msgId v idxs
        = (mSetData st i col v, true, [MEvent.cacheWrite i col v])) := by
  induction idxs with
  | nil => exact Or.inl ⟨rfl, by simp⟩
  | cons i rest ih =>
    by_cases hi : dataEditRole st i MSG_DB_ID_INDEX = msgId
    · exact Or.inr ⟨i, List.mem_cons_self i rest, hi, by simp [scanSetById, hi]⟩
    · rcases ih with ⟨heq, hall⟩ | ⟨j, hmem, hj, heq⟩
      · refine Or.inl ⟨by simp [scanSetById, hi, heq], ?_⟩
        intro k hk
        rcases List.mem_cons.mp hk with h | h
        · exact h ▸ hi
        · exact hall k h
      · exact Or.inr ⟨j, List.mem_cons_of_mem i hmem, hj, by simp [scanSetById, hi, heq]⟩

/-- Helper: the full frame/effect description of one lookup-by-id mutation
over the current row set. -/
theorem scanRange_spec (st : MsgModel) (col : Nat) (msgId v : Int) :
    (scanSetById st col msgId v (List.range st.query.length)).1.store = st.store ∧
    (scanSetById st col msgId v (List.range st.query.length)).1.query = st.query ∧
    (∀ e ∈ (scanSetById st col msgId v (List.range st.query.length)).2.2,
      e ≠ MEvent.beforeHook ∧ e ≠ MEvent.afterHook ∧ ∀ op, e ≠ MEvent.dbUpdate op) ∧
    ((scanSetById st col msgId v (List.range st.query.length)).2.1 = false →
      (scanSetById st col msgId v (List.range st.query.length)).1 = st) ∧
    ((scanSetById st col msgId v (List.range st.query.length)).2.1 = true ↔
      ∃ i < st.query.length, dataEditRole st i MSG_DB_ID_INDEX = msgId) ∧
    ((scanSetById st col msgId v (List.range st.query.length)).2.1 = true →
      ∃ i < st.query.length, dataEditRole st i MSG_DB_ID_INDEX = msgId ∧
        scanSetById st col msgId v (List.range st.query.length)
          = (mSetData st i col v, true, [MEvent.cacheWrite i col v])) := by
  rcases scanSetById_cases st col msgId v (List.range st.query.length) with
    ⟨heq, hall⟩ | ⟨i, hmem, hi, heq⟩
  · rw [heq]
    refine ⟨rfl, rfl, by simp, fun _ => rfl, ?_, by simp⟩
    simp only [show (false = true) = False by simp, false_iff]
    rintro ⟨i, hlt, hid⟩
    exact hall i (List.mem_range.mpr hlt) hid
  · rw [heq]
    refine ⟨by simp [mSetData], by simp [mSetData], by simp, by simp, ?_, ?_⟩
    · simp only [true_iff]
      exact ⟨i, List.mem_range.mp hmem, hi⟩
    · exact fun _ => ⟨i, List.mem_range.mp hmem, hi, rfl⟩

/-- C10: `setMessageReadById` and `setMessageImportantById` only write the
pending-edit cache of the current row set: the store and the query snapshot
are unchanged, no before/after hook and no store update is ever issued; when
some row of the current row set carries the given message id, the cache of
the first such row is written and true is returned, and when no row matches,
false is returned with the model unchanged. -/
theorem setById_cacheOnly (st : MsgModel) (msgId v : Int) :
    ((setMessageReadById st msgId v).1.store = st.store ∧
     (setMessageReadById st msgId v).1.query = st.query ∧
     (∀ e ∈ (setMessageReadById st msgId v).2.2,
        e ≠ MEvent.beforeHook ∧ e ≠ MEvent.afterHook ∧ ∀ op, e ≠ MEvent.dbUpdate op) ∧
     ((setMessageReadById st msgId v).2.1 = false → (setMessageReadById st msgId v).1 = st) ∧
     ((setMessageReadById st msgId v).2.1 = true ↔
        ∃ i < st.query.length, dataEditRole st i MSG_DB_ID_INDEX = msgId) ∧
     ((setMessageReadById st msgId v).2.1 = true →
        ∃ i < st.query.length, dataEditRole st i MSG_DB_ID_INDEX = msgId ∧
          setMessageReadById st msgId v
            = (mSetData st i MSG_DB_READ_INDEX v, true,
               [MEvent.cacheWrite i MSG_DB_READ_INDEX v]))) ∧
    ((setMessageImportantById st msgId v).1.store = st.store ∧
     (setMessageImportantById st msgId v).1.query = st.query ∧
     (∀ e ∈ (setMessageImportantById st msgId v).2.2,
        e ≠ MEvent.beforeHook ∧ e ≠ MEvent.afterHook ∧ ∀ op, e ≠ MEvent.dbUpdate op) ∧
     ((setMessageImportantById st msgId v).2.1 = false →
        (setMessageImportantById st msgId v).1 = st) ∧
     ((setMessageImportantById st msgId v).2.1 = true ↔
        ∃ i < st.query.length, dataEditRole st i MSG_DB_ID_INDEX = msgId) ∧
     ((setMessageImportantById st msgId v).2.1 = true →
        ∃ i < st.query.length, dataEditRole st i MSG_DB_ID_INDEX = msgId ∧
          setMessageImportantById st msgId v
            = (mSetData st i MSG_DB_IMPORTANT_INDEX v, true,
               [MEvent.cacheWrite i MSG_DB_IMPORTANT_INDEX v]))) :=
  ⟨scanRange_spec st MSG_DB_READ_INDEX msgId v,
   scanRange_spec st MSG_DB_IMPORTANT_INDEX msgId v⟩

/-- C10 witness: on the sample model, looking up message id 7 finds row 0
and returns true. -/
theorem setById_cacheOnly_witness :
    (setMessageReadById sampleModel 7 1).2.1 = true :=
  ((setById_cacheOnly sampleModel 7 1).1.2.2.2.2.1).mpr ⟨0, by decide, by decide⟩

/-- C8: reading a cell consults the pending-edit cache first and falls back
to the live query result: a cell just set through the model's edit path
reads back the new value; after `repopulate` the edit cache is empty and the
cell reads the value currently in the (filtered) store; an uncached row
reads the live query value. -/
theorem data_cache_overlay (st : MsgModel) (row col : Nat) (v : Int) :
    dataEditRole (mSetData st row col v) row col = v ∧
    (repopulate st).cache = (fun _ => none) ∧
    dataEditRole (repopulate st) row col = queryVal (st.store.filter st.flt) row col ∧
    (st.cache row = none → dataEditRole st row col = queryVal st.query row col) := by
  refine ⟨dataEditRole_mSetData_self st row col v, rfl, by simp [dataEditRole, repopulate], ?_⟩
  intro h
  simp [dataEditRole, h]

/-- C8 witness: on the sample model (empty cache) the read falls back to the
live query value. -/
theorem data_cache_overlay_witness :
    dataEditRole sampleModel 0 MSG_DB_READ_INDEX
      = queryVal sampleModel.query 0 MSG_DB_READ_INDEX :=
  (data_cache_overlay sampleModel 0 MSG_DB_READ_INDEX 1).2.2.2 rfl

/-- C4 counterexample: in `setMessageRead`, a vetoing before-hook leaves the
model completely untouched — the method returns false with the trace
`[beforeHook]` and the affected row's cache entry still empty, so no
optimistic in-memory write was made before the hook ran, contrary to the
claimed rewrite-then-hook order for the single-item operation. -/
theorem setMessageRead_veto_cache_unwritten :
    (setMessageRead sampleModel 0 1 false true true).2.1 = false ∧
    (setMessageRead sampleModel 0 1 false true true).2.2 = [MEvent.beforeHook] ∧
    ((setMessageRead sampleModel 0 1 false true true).1.cache 0).isNone = true ∧
    dataEditRole (setMessageRead sampleModel 0 1 false true true).1 0
      MSG_DB_READ_INDEX = 0 := by
  refine ⟨rfl, rfl, rfl, rfl⟩

/-- C4 amended: the batch operations (`setBatchMessagesRead`, and likewise
the batch delete/restore operations) rewrite the cache of every affected
message first and invoke the before-hook after those rewrites; a veto means
nothing is persisted, failure is returned, and the optimistic cache writes
are left in place.  The single-item `setMessageRead` (when the read status
actually changes) and `switchMessageImportance` instead invoke the
before-hook first: a veto returns failure with the store, cache and model
state completely unchanged and no cache write in the trace. -/
theorem messageMutation_hook_order (st : MsgModel) (row : Nat) (rows : List Nat)
    (read : Int) (persistOk afterOk : Bool)
    (h : dataEditRole st row MSG_DB_READ_INDEX ≠ read) :
    setMessageRead st row read false persistOk afterOk = (st, false, [MEvent.beforeHook]) ∧
    switchMessageImportance st row false persistOk afterOk
      = (st, false, [MEvent.beforeHook]) ∧
    ((setBatchMessagesRead st rows read false persistOk afterOk).2.1 = false ∧
     (setBatchMessagesRead st rows read false persistOk afterOk).1.store = st.store ∧
     (setBatchMessagesRead st rows read false persistOk afterOk).2.2
       = rows.map (fun r => MEvent.cacheWrite r MSG_DB_READ_INDEX read)
           ++ [MEvent.beforeHook] ∧
     ∀ r ∈ rows,
       dataEditRole (setBatchMessagesRead st rows read false persistOk afterOk).1 r
         MSG_DB_READ_INDEX = read) ∧
    ((setBatchMessagesDeleted st rows false persistOk afterOk).2.1 = false ∧
     (setBatchMessagesDeleted st rows false persistOk afterOk).1.store = st.store) ∧
    ((setBatchMessagesRestored st rows false persistOk afterOk).2.1 = false ∧
     (setBatchMessagesRestored st rows false persistOk afterOk).1.store = st.store) := by
  refine ⟨by simp [setMessageRead, h], by simp [switchMessageImportance], ⟨?_, ?_, ?_, ?_⟩,
          ⟨by simp [setBatchMessagesDeleted], by simp [setBatchMessagesDeleted,
            batchCollectWrite_store]⟩,
          ⟨by simp [setBatchMessagesRestored], by simp [setBatchMessagesRestored,
            batchCollectRestore_store]⟩⟩
  · simp [setBatchMessagesRead]
  · simp [setBatchMessagesRead, batchCollectWrite_store]
  · simp [setBatchMessagesRead, batchCollectWrite_events]
  · intro r hr
    simpa [setBatchMessagesRead] using
      batchCollectWrite_read MSG_DB_READ_INDEX read st rows r hr

/-- C4 witness: on the sample model the read status 0 differs from the
requested 1, and the vetoed single-item call leaves the model unchanged. -/
theorem messageMutation_hook_order_witness :
    dataEditRole sampleModel 0 MSG_DB_READ_INDEX ≠ 1 ∧
    setMessageRead sampleModel 0 1 false true true
      = (sampleModel, false, [MEvent.beforeHook]) :=
  ⟨by decide, (messageMutation_hook_order sampleModel 0 [0] 1 true true (by decide)).1⟩

/-- C9: after a successful `setBatchMessagesDeleted` on a non-recycle-bin
view, every affected message reads soft-deleted = 1 from the cache with its
permanently-deleted flag unchanged, and the persistence path taken is
move-to-bin (never purge); on the recycle-bin view the permanently-deleted
flag is set and the purge path is taken instead; after a successful
`setBatchMessagesRestored` every affected message reads both deleted flags
as 0. -/
theorem batchDeleteRestore_flags (st : MsgModel) (rows : List Nat)
    (beforeOk persistOk afterOk : Bool) :
    (st.selectedIsBin = false →
      (setBatchMessagesDeleted st rows beforeOk persistOk afterOk).2.1 = true →
      (∀ r ∈ rows,
        dataEditRole (setBatchMessagesDeleted st rows beforeOk persistOk afterOk).1 r
          MSG_DB_DELETED_INDEX = 1 ∧
        dataEditRole (setBatchMessagesDeleted st rows beforeOk persistOk afterOk).1 r
          MSG_DB_PDELETED_INDEX = dataEditRole st r MSG_DB_PDELETED_INDEX) ∧
      MEvent.dbUpdate .moveToBin
        ∈ (setBatchMessagesDeleted st rows beforeOk persistOk afterOk).2.2 ∧
      MEvent.dbUpdate .purge
        ∉ (setBatchMessagesDeleted st rows beforeOk persistOk afterOk).2.2) ∧
    (st.selectedIsBin = true →
      (setBatchMessagesDeleted st rows beforeOk persistOk afterOk).2.1 = true →
      (∀ r ∈ rows,
        dataEditRole (setBatchMessagesDeleted st rows beforeOk persistOk afterOk).1 r
          MSG_DB_PDELETED_INDEX = 1) ∧
      MEvent.dbUpdate .purge
        ∈ (setBatchMessagesDeleted st rows beforeOk persistOk afterOk).2.2 ∧
      MEvent.dbUpdate .moveToBin
        ∉ (setBatchMessagesDeleted st rows beforeOk persistOk afterOk).2.2) ∧
    ((setBatchMessagesRestored st rows beforeOk persistOk afterOk).2.1 = true →
      ∀ r ∈ rows,
        dataEditRole (setBatchMessagesRestored st rows beforeOk persistOk afterOk).1 r
          MSG_DB_DELETED_INDEX = 0 ∧
        dataEditRole (setBatchMessagesRestored st rows beforeOk persistOk afterOk).1 r
          MSG_DB_PDELETED_INDEX = 0) := by
  refine ⟨?_, ?_, ?_⟩
  · intro hbin hsucc
    cases beforeOk with
    | false => simp [setBatchMessagesDeleted] at hsucc
    | true =>
      cases persistOk with
      | false => simp [setBatchMessagesDeleted, hbin] at hsucc
      | true =>
        refine ⟨?_, by simp [setBatchMessagesDeleted, hbin], ?_⟩
        · intro r hr
          constructor
          · simpa [setBatchMessagesDeleted, hbin, dataEditRole] using
              batchCollectWrite_read MSG_DB_DELETED_INDEX 1 st rows r hr
          · simpa [setBatchMessagesDeleted, hbin, dataEditRole] using
              batchCollectWrite_read_other MSG_DB_DELETED_INDEX 1 st rows r
                MSG_DB_PDELETED_INDEX (by decide)
        · simp [setBatchMessagesDeleted, hbin, batchCollectWrite_events, List.mem_append]
  · intro hbin hsucc
    cases beforeOk with
    | false => simp [setBatchMessagesDeleted] at hsucc
    | true =>
      cases persistOk with
      | false => simp [setBatchMessagesDeleted, hbin] at hsucc
      | true =>
        refine ⟨?_, by simp [setBatchMessagesDeleted, hbin], ?_⟩
        · intro r hr
          simpa [setBatchMessagesDeleted, hbin, dataEditRole] using
            batchCollectWrite_read MSG_DB_PDELETED_INDEX 1 st rows r hr
        · simp [setBatchMessagesDeleted, hbin, batchCollectWrite_events, List.mem_append]
  · intro hsucc r hr
    cases beforeOk with
    | false => simp [setBatchMessagesRestored] at hsucc
    | true =>
      cases persistOk with
      | false => simp [setBatchMessagesRestored] at hsucc
      | true =>
        have h := batchCollectRestore_read st rows r hr
        exact ⟨by simpa [setBatchMessagesRestored, dataEditRole] using h.1,
               by simpa [setBatchMessagesRestored, dataEditRole] using h.2⟩

/-- C9 witness: on the sample model (non-bin view) a successful batch delete
of row 0 reads soft-deleted = 1 back from the cache. -/
theorem batchDeleteRestore_flags_witness :
    sampleModel.selectedIsBin = false ∧
    (setBatchMessagesDeleted sampleModel [0] true true true).2.1 = true ∧
    dataEditRole (setBatchMessagesDeleted sampleModel [0] true true true).1 0
      MSG_DB_DELETED_INDEX = 1 :=
  ⟨rfl, by decide,
   (((batchDeleteRestore_flags sampleModel [0] true true true).1 rfl (by decide)).1 0
     (by simp)).1⟩

/-- Helper: rewriting at an index only changes that index. -/
theorem listModify_getElem_self {α : Type} (g : α → α) :
    ∀ (i : Nat) (l : List α), (listModify g i l)[i]? = l[i]?.map g := by
  intro i l
  induction l generalizing i with
  | nil => simp [listModify]
  | cons x xs ih =>
    cases i with
    | zero => simp [listModify]
    | succ n => simpa [listModify] using ih n

/-- Helper: rewriting at an index leaves every other index unchanged. -/
theorem listModify_getElem_ne {α : Type} (g : α → α) :
    ∀ (i j : Nat) (l : List α), j ≠ i → (listModify g i l)[j]? = l[j]? := by
  intro i j l
  induction l generalizing i j with
  | nil => simp [listModify]
  | cons x xs ih =>
    intro hji
    cases i with
    | zero =>
      cases j with
      | zero => exact absurd rfl hji
      | succ m => simp [listModify]
    | succ n =>
      cases j with
      | zero => simp [listModify]
      | succ m => simpa [listModify] using ih n m (fun h => hji (by rw [h]))

/-- Helper: a pointwise-invariant measurement is unchanged by an index
rewrite. -/
theorem listModify_map_of {α β : Type} (m : α → β) (g : α → α)
    (h : ∀ x, m (g x) = m x) :
    ∀ (i : Nat) (l : List α), (listModify g i l).map m = l.map m := by
  intro i l
  induction l generalizing i with
  | nil => cases i <;> simp [listModify]
  | cons x xs ih =>
    cases i with
    | zero => simp [listModify, h]
    | succ n => simpa [listModify] using ih n

/-- Helper: erasing an index commutes with mapping. -/
theorem eraseIdx_map_comm {α β : Type} (m : α → β) :
    ∀ (l : List α) (i : Nat), (l.eraseIdx i).map m = (l.map m).eraseIdx i := by
  intro l
  induction l with
  | nil => intro i; rfl
  | cons x xs ih =>
    intro i
    cases i with
    | zero => simp [List.eraseIdx]
    | succ n => simp [List.eraseIdx, ih n]

/-- Helper: erasing an element different from the last keeps the last. -/
theorem getLast?_eraseIdx_ne {α : Type} :
    ∀ (l : List α) (i : Nat) (a b : α),
      l.getLast? = some b → l[i]? = some a → a ≠ b →
      (l.eraseIdx i).getLast? = some b := by
  intro l
  induction l with
  | nil => intro i a b _ hget; simp at hget
  | cons x xs ih =>
    intro i a b hlast hget hab
    cases i with
    | zero =>
      have hax : x = a := by simpa using hget
      cases xs with
      | nil =>
        have hxb : x = b := by simpa using hlast
        exact absurd (hax.symm.trans hxb) hab
      | cons y ys =>
        simpa [List.eraseIdx] using (by simpa [List.getLast?_cons_cons] using hlast)
    | succ n =>
      have hget' : xs[n]? = some a := by simpa using hget
      cases xs with
      | nil => simp at hget'
      | cons y ys =>
        have hlast' : (y :: ys).getLast? = some b := by
          simpa [List.getLast?_cons_cons] using hlast
        have hrec := ih n a b hlast' hget' hab
        have hne : (y :: ys).eraseIdx n ≠ [] := by
          intro hnil
          rw [hnil] at hrec
          simp at hrec
        simp only [List.eraseIdx]
        cases he : (y :: ys).eraseIdx n with
        | nil => exact absurd he hne
        | cons z zs =>
          rw [he] at hrec
          simpa [List.getLast?_cons_cons] using hrec

/-- Helper: the node a path points at, after a rewrite along that exact
path, is the rewritten node. -/
theorem getAt_updAt_self :
    ∀ (p : List Nat) (f : TreeItem → TreeItem) (t x : TreeItem),
      getAt p t = some x → getAt p (updAt p f t) = some (f x) := by
  intro p
  induction p with
  | nil =>
    intro f t x h
    have : t = x := by simpa [getAt] using h
    subst this
    rfl
  | cons i p ih =>
    intro f t x h
    cases t with
    | node k id ti cs =>
      cases hc : cs[i]? with
      | none => simp [getAt, TreeItem.childItems, hc] at h
      | some c =>
        have h' : getAt p c = some x := by simpa [getAt, TreeItem.childItems, hc] using h
        have hm : (listModify (updAt p f) i cs)[i]? = some (updAt p f c) := by
          rw [listModify_getElem_self, hc]; rfl
        simpa [updAt, getAt, TreeItem.childItems, hm] using ih f c x h'

/-- Helper: a rewrite along one path does not change what a diverging path
points at. -/
theorem getAt_updAt_divergent :
    ∀ (p q : List Nat) (f : TreeItem → TreeItem) (t : TreeItem),
      divergent p q = true → getAt q (updAt p f t) = getAt q t := by
  intro p
  induction p with
  | nil => intro q f t h; simp [divergent] at h
  | cons i p ih =>
    intro q f t h
    cases q with
    | nil => simp [divergent] at h
    | cons j q' =>
      cases t with
      | node k id ti cs =>
        by_cases hij : i = j
        · subst hij
          have h' : divergent p q' = true := by simpa [divergent] using h
          cases hc : cs[i]? with
          | none =>
            have hm : (listModify (updAt p f) i cs)[i]? = none := by
              rw [listModify_getElem_self, hc]; rfl
            simp [updAt, getAt, TreeItem.childItems, hm, hc]
          | some c =>
            have hm : (listModify (updAt p f) i cs)[i]? = some (updAt p f c) := by
              rw [listModify_getElem_self, hc]; rfl
            simpa [updAt, getAt, TreeItem.childItems, hm, hc] using ih q' f c h'
        · have hm : (listModify (updAt p f) i cs)[j]? = cs[j]? :=
            listModify_getElem_ne (updAt p f) i j cs (fun hji => hij hji.symm)
          cases hc : cs[j]? with
          | none => simp [updAt, getAt, TreeItem.childItems, hm, hc]
          | some c => simp [updAt, getAt, TreeItem.childItems, hm, hc]

/-- Helper: a one-step path reads the indexed child. -/
theorem getAt_single (t : TreeItem) (j : Nat) : getAt [j] t = t.childItems[j]? := by
  cases hc : t.childItems[j]? <;> simp [getAt, hc]

/-- Helper: a kind-preserving rewrite anywhere preserves the node's kind. -/
theorem kind_updAt (f : TreeItem → TreeItem) (hf : ∀ s, (f s).kind = s.kind) :
    ∀ (p : List Nat) (t : TreeItem), (updAt p f t).kind = t.kind := by
  intro p t
  cases p with
  | nil => exact hf t
  | cons i p' => cases t with
    | node k id ti cs => rfl

/-- Helper: a kind-preserving rewrite strictly below the node keeps the
kinds of the node's children. -/
theorem childKinds_updAt (f : TreeItem → TreeItem) (hf : ∀ s, (f s).kind = s.kind)
    (i : Nat) (p : List Nat) (t : TreeItem) :
    (updAt (i :: p) f t).childItems.map TreeItem.kind
      = t.childItems.map TreeItem.kind := by
  cases t with
  | node k id ti cs =>
    simpa [updAt, TreeItem.childItems] using
      listModify_map_of TreeItem.kind (updAt p f) (fun x => kind_updAt f hf p x) i cs

/-- Helper: appending a child preserves the node's kind. -/
theorem kind_appendChild (s c : TreeItem) : (s.appendChild c).kind = s.kind := by
  cases s; rfl

/-- Helper: removing a child preserves the node's kind. -/
theorem kind_removeChildIdx (s : TreeItem) (i : Nat) : (s.removeChildIdx i).kind = s.kind := by
  cases s; rfl

/-- Helper: the bin-last invariant only looks at the kinds of the root's
children. -/
theorem binIsLastChild_eq_of_kinds {t t' : TreeItem}
    (h : t'.childItems.map TreeItem.kind = t.childItems.map TreeItem.kind) :
    binIsLastChild t' = binIsLastChild t := by
  simp [binIsLastChild, h]

/-- Helper: removing a root child whose kind is not `Bin` keeps the bin-last
invariant. -/
theorem binIsLastChild_removeChildIdx (t : TreeItem) (i : Nat) (n : TreeItem)
    (hget : t.childItems[i]? = some n) (hk : n.kind ≠ RootItemKind.Bin)
    (h : binIsLastChild t = true) :
    binIsLastChild (t.removeChildIdx i) = true := by
  have hlast : (t.childItems.map TreeItem.kind).getLast? = some RootItemKind.Bin := by
    simpa [binIsLastChild] using h
  have hgetk : (t.childItems.map TreeItem.kind)[i]? = some n.kind := by
    simp [hget]
  have herase := getLast?_eraseIdx_ne (t.childItems.map TreeItem.kind) i n.kind
    RootItemKind.Bin hlast hgetk hk
  have hchild : (t.removeChildIdx i).childItems = t.childItems.eraseIdx i := by
    cases t; rfl
  simp [binIsLastChild, hchild, eraseIdx_map_comm, herase]

/-- C5: a structural mutation is atomic with respect to persistence.
`removeItem` detaches the node exactly when the persistent deletion
succeeds: on oracle failure or an unresolvable index the tree is unchanged
and false is returned; on success the parent's child list loses exactly the
removed index and every diverging path is untouched.  `addCategory` and
`addFeed` append the candidate as the parent's last child exactly when
persisting succeeds; on failure the candidate is discarded, the tree is
unchanged, and false is returned.  No other tree state is produced. -/
theorem structuralMutation_atomic (t : TreeItem) (p : List Nat) (i : Nat) (c : TreeItem) :
    removeItem false t p i = (t, false) ∧
    (getAt (p ++ [i]) t = none → removeItem true t p i = (t, false)) ∧
    (∀ node, getAt (p ++ [i]) t = some node →
      (removeItem true t p i).2 = true ∧
      ∀ parent, getAt p t = some parent →
        getAt p (removeItem true t p i).1 = some (parent.removeChildIdx i) ∧
        (parent.removeChildIdx i).childItems = parent.childItems.eraseIdx i ∧
        ∀ q, divergent p q = true → getAt q (removeItem true t p i).1 = getAt q t) ∧
    addCategory false t p c = (t, false) ∧
    addFeed false t p c = (t, false) ∧
    ((addCategory true t p c).2 = true ∧ (addFeed true t p c).2 = true) ∧
    (∀ parent, getAt p t = some parent →
      getAt p (addCategory true t p c).1 = some (parent.appendChild c) ∧
      (parent.appendChild c).childItems = parent.childItems ++ [c] ∧
      getAt p (addFeed true t p c).1 = some (parent.appendChild c) ∧
      ∀ q, divergent p q = true → getAt q (addCategory true t p c).1 = getAt q t) := by
  refine ⟨?_, ?_, ?_, by simp [addCategory], by simp [addFeed],
          ⟨by simp [addCategory], by simp [addFeed]⟩, ?_⟩
  · cases hg : getAt (p ++ [i]) t <;> simp [removeItem, hg]
  · intro h; simp [removeItem, h]
  · intro node hg
    have hrw : removeItem true t p i = (updAt p (fun n => n.removeChildIdx i) t, true) := by
      simp [removeItem, hg]
    refine ⟨by simp [hrw], ?_⟩
    intro parent hp
    refine ⟨?_, by cases parent; rfl, ?_⟩
    · rw [hrw]
      exact getAt_updAt_self p _ t parent hp
    · intro q hq
      rw [hrw]
      exact getAt_updAt_divergent p q _ t hq
  · intro parent hp
    refine ⟨?_, by cases parent; rfl, ?_, ?_⟩
    · simpa [addCategory] using getAt_updAt_self p _ t parent hp
    · simpa [addFeed] using getAt_updAt_self p _ t parent hp
    · intro q hq
      simpa [addCategory] using getAt_updAt_divergent p q _ t hq

/-- C5 witness: on a freshly loaded root with one category, a persisted
removal of the category reports success and a failed one changes nothing. -/
theorem structuralMutation_atomic_witness :
    (removeItem true (loadedRoot [sampleCategory]) [] 0).2 = true ∧
    removeItem false (loadedRoot [sampleCategory]) [] 0 = (loadedRoot [sampleCategory], false) :=
  ⟨((structuralMutation_atomic (loadedRoot [sampleCategory]) [] 0 sampleCategory).2.2.1
      sampleCategory rfl).1,
   (structuralMutation_atomic (loadedRoot [sampleCategory]) [] 0 sampleCategory).1⟩

/-- Helper for C7: every safe mutation preserves the bin-last invariant. -/
theorem binLast_applyOp (t : TreeItem) (op : FeedsOp)
    (h : binIsLastChild t = true) (hs : opSafe t op) :
    binIsLastChild (applyOp t op).1 = true := by
  cases op with
  | addCat p cid ti ok =>
    cases ok with
    | false => simpa [applyOp, addCategory] using h
    | true =>
      cases p with
      | nil => exact absurd rfl hs
      | cons i p' =>
        have hk := childKinds_updAt (fun n => n.appendChild (.node .Cattegory cid ti []))
          (fun s => kind_appendChild s _) i p' t
        simpa [applyOp, addCategory, binIsLastChild_eq_of_kinds hk] using h
  | addFd p fid ti ok =>
    cases ok with
    | false => simpa [applyOp, addFeed] using h
    | true =>
      cases p with
      | nil => exact absurd rfl hs
      | cons i p' =>
        have hk := childKinds_updAt (fun n => n.appendChild (.node .Feeed fid ti []))
          (fun s => kind_appendChild s _) i p' t
        simpa [applyOp, addFeed, binIsLastChild_eq_of_kinds hk] using h
  | removeIt p i ok =>
    cases hg : getAt (p ++ [i]) t with
    | none => simpa [applyOp, removeItem, hg] using h
    | some node =>
      cases ok with
      | false => simpa [applyOp, removeItem, hg] using h
      | true =>
        cases p with
        | nil =>
          have hg' : getAt [i] t = some node := by simpa using hg
          have hkind : node.kind ≠ RootItemKind.Bin := by
            rcases hs with hne | hbin
            · exact absurd rfl hne
            · exact hbin node hg'
          have hget : t.childItems[i]? = some node := by
            rw [← getAt_single]
            exact hg'
          simpa [applyOp, removeItem, hg', updAt] using
            binIsLastChild_removeChildIdx t i node hget hkind h
        | cons j p' =>
          have hg' : getAt (j :: (p' ++ [i])) t = some node := by simpa using hg
          have hk := childKinds_updAt (fun n => n.removeChildIdx i)
            (fun s => kind_removeChildIdx s i) j p' t
          simpa [applyOp, removeItem, hg', binIsLastChild_eq_of_kinds hk] using h
  | reassign np newp =>
    obtain ⟨hnew, hbin⟩ := hs
    cases hg : getAt np t with
    | none => simpa [applyOp, reassignNodeToNewParent, hg] using h
    | some node =>
      by_cases hsame : np.dropLast = newp
      · simpa [applyOp, reassignNodeToNewParent, hg, hsame] using h
      · cases hl : np.getLast? with
        | none => simpa [applyOp, reassignNodeToNewParent, hg, hsame, hl] using h
        | some j =>
          have hinner :
              binIsLastChild (updAt np.dropLast (fun n => n.removeChildIdx j) t) = true := by
            cases hq : np.dropLast with
            | nil =>
              have hnp : np = [j] := by
                have hne : np ≠ [] := by
                  intro hnil
                  rw [hnil] at hl
                  simp at hl
                have := List.dropLast_append_getLast? j hl
                rw [hq] at this
                simpa using this.symm
              have hkind : node.kind ≠ RootItemKind.Bin := by
                refine hbin j node hnp ?_
                rw [← hnp]; exact hg
              have hget : t.childItems[j]? = some node := by
                rw [← getAt_single, ← hnp]; exact hg
              simpa [updAt] using binIsLastChild_removeChildIdx t j node hget hkind h
            | cons a q' =>
              have hk := childKinds_updAt (fun n => n.removeChildIdx j)
                (fun s => kind_removeChildIdx s j) a q' t
              simpa [binIsLastChild_eq_of_kinds hk] using h
          cases hnp : newp with
          | nil => exact absurd hnp hnew
          | cons b q'' =>
            have hsame' : np.dropLast ≠ b :: q'' := hnp ▸ hsame
            have hk := childKinds_updAt (fun n => n.appendChild node)
              (fun s => kind_appendChild s node) b q''
              (updAt np.dropLast (fun n => n.removeChildIdx j) t)
            rw [applyOp]
            simpa [reassignNodeToNewParent, hg, hsame', hl, hnp,
                   binIsLastChild_eq_of_kinds hk] using hinner

/-- C7 counterexample: a single successful `addFeed` with the Root as the
parent appends the feed after the recycle bin, so the bin is no longer the
last child of the Root although the operation reported success and the
invariant held before. -/
theorem addFeed_under_root_breaks_binLast :
    binIsLastChild (loadedRoot []) = true ∧
    (applyOp (loadedRoot []) (.addFd [] 3 "Blog" true)).2 = true ∧
    binIsLastChild (applyOp (loadedRoot []) (.addFd [] 3 "Blog" true)).1 = false := by
  refine ⟨rfl, rfl, rfl⟩

/-- C7 amended: `loadFromDatabase` ends with the RecycleBin as the last
child of the Root, and the invariant is preserved by every sequence of
mutations in which adds and re-attachments target a non-root parent and
root-level removals and moves never target the bin itself; an add directly
under the Root, however, appends the new node after the RecycleBin and
breaks the invariant. -/
theorem binLast_load_and_preserved (assembled : List TreeItem) (t : TreeItem)
    (ops : List FeedsOp) (h0 : binIsLastChild t = true) (hs : SafeSeq t ops) :
    binIsLastChild (loadedRoot assembled) = true ∧
    binIsLastChild (applyOps t ops) = true := by
  constructor
  · simp [binIsLastChild, loadedRoot, TreeItem.childItems, recycleBinItem, TreeItem.kind]
  · induction ops generalizing t with
    | nil => exact h0
    | cons op ops ih =>
      obtain ⟨hop, hrest⟩ := hs
      exact ih (applyOp t op).1 (binLast_applyOp t op h0 hop) hrest

/-- C7 witness: a successful feed add below a category keeps the bin the
last child of the Root. -/
theorem binLast_load_and_preserved_witness :
    binIsLastChild (applyOps (loadedRoot [sampleCategory])
      [FeedsOp.addFd [0] 2 "Blog" true]) = true :=
  (binLast_load_and_preserved [] (loadedRoot [sampleCategory])
    [FeedsOp.addFd [0] 2 "Blog" true] rfl
    ⟨by simp [opSafe], trivial⟩).2

/-- Helper: every source tree has positive size. -/
theorem sourceSize_pos (s : SourceItem) : 1 ≤ sourceSize s := by
  cases s with
  | node k id ti ch cs => simp [sourceSize]

/-- Helper: stack weight distributes over append. -/
theorem stackWeight_append (a b : List (List Nat × SourceItem)) :
    stackWeight (a ++ b) = stackWeight a + stackWeight b := by
  simp [stackWeight]

/-- Helper: stack weight ignores order. -/
theorem stackWeight_reverse (a : List (List Nat × SourceItem)) :
    stackWeight a.reverse = stackWeight a := by
  simp [stackWeight, List.sum_reverse]

/-- Helper: processing one source child pushes at most that child's own
weight. -/
theorem mergeChild_weight (oracle : Nat → Bool) (tp : List Nat) (st : MergeState)
    (s : SourceItem) : stackWeight (mergeChild oracle tp st s).2 ≤ sourceSize s := by
  unfold mergeChild
  repeat' split
  all_goals cases hb : oracle st.counter <;> simp [stackWeight, hb]

/-- Helper: processing a child list pushes at most the list's weight. -/
theorem mergeChildren_weight (oracle : Nat → Bool) (tp : List Nat) :
    ∀ (cs : List SourceItem) (st : MergeState),
      stackWeight (mergeChildren oracle tp st cs).2 ≤ sourceSizeL cs := by
  intro cs
  induction cs with
  | nil => intro st; simp [mergeChildren, stackWeight]
  | cons s rest ih =>
    intro st
    have h1 := mergeChild_weight oracle tp st s
    have h2 := ih (mergeChild oracle tp st s).1
    calc stackWeight (mergeChildren oracle tp st (s :: rest)).2
        = stackWeight (mergeChild oracle tp st s).2
            + stackWeight (mergeChildren oracle tp (mergeChild oracle tp st s).1 rest).2 := by
          simp [mergeChildren, stackWeight_append]
      _ ≤ sourceSize s + sourceSizeL rest := Nat.add_le_add h1 h2
      _ = sourceSizeL (s :: rest) := by simp [sourceSizeL]

/-- Helper: the merge loop finishes whenever the fuel covers the stack
weight; in particular `sourceSize` of the import root always suffices. -/
theorem mergeLoopF_completes (oracle : Nat → Bool) :
    ∀ (fuel : Nat) (st : MergeState) (stack : List (List Nat × SourceItem)),
      stackWeight stack ≤ fuel → (mergeLoopF oracle fuel st stack).isSome = true := by
  intro fuel
  induction fuel with
  | zero =>
    intro st stack h
    cases stack with
    | nil => rfl
    | cons pr rest =>
      exfalso
      have h1 := sourceSize_pos pr.2
      have : 1 ≤ stackWeight (pr :: rest) := by
        calc 1 ≤ sourceSize pr.2 := h1
          _ ≤ sourceSize pr.2 + stackWeight rest := Nat.le_add_right _ _
          _ = stackWeight (pr :: rest) := by simp [stackWeight]
      omega
  | succ n ih =>
    intro st stack h
    cases stack with
    | nil => rfl
    | cons pr rest =>
      obtain ⟨tp, sp⟩ := pr
      have hstep := mergeChildren_weight oracle tp sp.childItems st
      have hsp : sourceSize sp = 1 + sourceSizeL sp.childItems := by
        cases sp; simp [sourceSize, SourceItem.childItems]
      have hw : stackWeight ((mergeChildren oracle tp st sp.childItems).2.reverse ++ rest)
          ≤ n := by
        rw [stackWeight_append, stackWeight_reverse]
        have hstack : stackWeight ((tp, sp) :: rest)
            = sourceSize sp + stackWeight rest := by simp [stackWeight]
        rw [hstack] at h
        omega
      exact ih _ _ hw

/-- C6: `mergeModel` reports overall success iff no partial failure was
recorded, always produces exactly one of the two outcome messages (with
success iff the full-success one), and completes within `sourceSize` loop
iterations.  A checked source category whose persist-add fails descends
into an existing same-title category of the target parent when one exists
(no failure recorded), and otherwise records a partial failure and drops the
branch with its descendants; a checked feed whose persist-add fails records
a partial failure and processing continues.  Concretely: merging a source
"News"/"BBC" into a target already holding "News" (category add collides,
feed add succeeds) attaches "BBC" under the existing "News" with no
duplicate and reports complete success; the same merge with an additional
"CNN" feed whose add fails yields the same tree, reports failure, and sets
the partial-failure message. -/
theorem mergeModel_partial_failure :
    (∀ (oracle : Nat → Bool) (fuel : Nat) (target : TreeItem) (src : SourceItem)
        (result : TreeItem × Bool × String),
      mergeModel oracle fuel target src = some result →
        ((result.2.1 = true) ↔ result.2.2 = fullSuccessMsg) ∧
        (result.2.2 = fullSuccessMsg ∨ result.2.2 = partialFailureMsg)) ∧
    (∀ (oracle : Nat → Bool) (fuel : Nat) (target : TreeItem) (src : SourceItem),
      sourceSize src ≤ fuel → (mergeModel oracle fuel target src).isSome = true) ∧
    (∀ (oracle : Nat → Bool) (tp : List Nat) (st : MergeState) (s : SourceItem)
        (parent : TreeItem) (j : Nat),
      s.checked = true → s.kind = .Cattegory → oracle st.counter = false →
      getAt tp st.target = some parent →
      findChildIdx parent .Cattegory s.title = some j →
      mergeChild oracle tp st s = ({ st with counter := st.counter + 1 }, [(tp ++ [j], s)])) ∧
    (∀ (oracle : Nat → Bool) (tp : List Nat) (st : MergeState) (s : SourceItem)
        (parent : TreeItem),
      s.checked = true → s.kind = .Cattegory → oracle st.counter = false →
      getAt tp st.target = some parent →
      findChildIdx parent .Cattegory s.title = none →
      mergeChild oracle tp st s
        = ({ st with counter := st.counter + 1, failed := true }, [])) ∧
    (∀ (oracle : Nat → Bool) (tp : List Nat) (st : MergeState) (s : SourceItem),
      s.checked = true → s.kind = .Feeed → oracle st.counter = false →
      mergeChild oracle tp st s
        = ({ st with counter := st.counter + 1, failed := true }, [])) ∧
    mergeModel mergeOracleA 10 mergeTarget mergeSourceA
      = some (mergedTargetExpected, true, fullSuccessMsg) ∧
    mergeModel mergeOracleB 10 mergeTarget mergeSourceB
      = some (mergedTargetExpected, false, partialFailureMsg) := by
  refine ⟨?_, ?_, ?_, ?_, ?_, by rfl, by rfl⟩
  · intro oracle fuel target src result h
    rcases Option.map_eq_some'.mp h with ⟨st, _, hf⟩
    cases hfl : st.failed <;> rw [hfl] at hf <;> rw [← hf] <;>
      simp [fullSuccessMsg, partialFailureMsg]
  · intro oracle fuel target src h
    have hw : stackWeight [([], src)] ≤ fuel := by simpa [stackWeight] using h
    simpa [mergeModel] using mergeLoopF_completes oracle fuel ⟨target, 0, false⟩ [([], src)] hw
  · intro oracle tp st s parent j hc hk ho hget hfind
    cases s with
    | node k id ti ch cs =>
      have hch : ch = true := hc
      have hkk : k = RootItemKind.Cattegory := hk
      subst hch hkk
      simp only [mergeChild, SourceItem.checked, SourceItem.kind, SourceItem.title] at *
      simp [ho, hget, hfind]
  · intro oracle tp st s parent hc hk ho hget hfind
    cases s with
    | node k id ti ch cs =>
      have hch : ch = true := hc
      have hkk : k = RootItemKind.Cattegory := hk
      subst hch hkk
      simp only [mergeChild, SourceItem.checked, SourceItem.kind, SourceItem.title] at *
      simp [ho, hget, hfind]
  · intro oracle tp st s hc hk ho
    cases s with
    | node k id ti ch cs =>
      have hch : ch = true := hc
      have hkk : k = RootItemKind.Feeed := hk
      subst hch hkk
      simp only [mergeChild, SourceItem.checked, SourceItem.kind] at *
      simp [ho]

/-- C6 witness: scenario A's result satisfies the success/message
dichotomy. -/
theorem mergeModel_partial_failure_witness :
    (((mergedTargetExpected, true, fullSuccessMsg) : TreeItem × Bool × String).2.1 = true ↔
      ((mergedTargetExpected, true, fullSuccessMsg) : TreeItem × Bool × String).2.2
        = fullSuccessMsg) ∧
    (((mergedTargetExpected, true, fullSuccessMsg) : TreeItem × Bool × String).2.2
        = fullSuccessMsg ∨
      ((mergedTargetExpected, true, fullSuccessMsg) : TreeItem × Bool × String).2.2
        = partialFailureMsg) :=
  mergeModel_partial_failure.1 mergeOracleA 10 mergeTarget mergeSourceA
    (mergedTargetExpected, true, fullSuccessMsg) (by rfl)

/-- C2: the category-assembly pass does NOT terminate on an orphaned
category.  A single row whose declared parent id (42) never resolves leaves
the `while (!categories.isEmpty())` loop spinning: for every number of scans
the list is still non-empty (first conjunct — the code hangs, where the spec
says the orphan is silently dropped).  On a valid forest — category 1 under
the root sentinel, category 2 under category 1, listed child-first so that
two scans are needed — the loop does terminate with every category attached
to its declared parent (second conjunct). -/
theorem assembleCategories_orphan_never_terminates :
    (∀ fuel : Nat, assembleCategories fuel [⟨42, 1⟩] = none) ∧
    assembleCategories 2 [⟨1, 2⟩, ⟨NO_PARENT_CATEGORY, 1⟩] =
      some ([2, 1, NO_PARENT_CATEGORY], [(1, NO_PARENT_CATEGORY), (2, 1)]) := by
  constructor
  · intro fuel
    induction fuel with
    | zero => rfl
    | succ n ih =>
      have hstuck : assemblePass [NO_PARENT_CATEGORY] [] [⟨42, 1⟩]
          = ([NO_PARENT_CATEGORY], [], [⟨42, 1⟩]) :=
        assemblePass_stuck _ _ _ (by decide)
      simpa [assembleCategories, assembleLoop, hstuck] using ih
  · decide

/-- C1: one call to `feedsForScheduledUpdate(autoUpdateNow)` treats every feed
by its auto-update mode — `Disabled` feeds are never included and keep their
state; `UseGlobalInterval` feeds are included iff `autoUpdateNow` and keep
their state; `SpecificInterval` feeds have their remaining interval
decremented, and are included with the interval reset to the initial interval
when the decrement reaches ≤ 0, else store the decrement and are excluded —
and the returned list is the included feeds in traversal order. -/
theorem feedsForScheduledUpdate_correct (auto_update_now : Bool) (feeds : List Feed) :
    (feedsForScheduledUpdate auto_update_now feeds).1 = feeds.map feedScheduleStep ∧
    (feedsForScheduledUpdate auto_update_now feeds).2 =
      (feeds.filter (feedIncluded auto_update_now)).map feedScheduleStep := by
  induction feeds with
  | nil => exact ⟨rfl, rfl⟩
  | cons feed rest ih =>
    obtain ⟨ih1, ih2⟩ := ih
    cases h : feed.autoUpdateType
    · exact ⟨by simp [feedsForScheduledUpdate, feedScheduleStep, h, ih1],
            by simp [feedsForScheduledUpdate, feedIncluded, List.filter_cons, h, ih2]⟩
    · refine ⟨by simp [feedsForScheduledUpdate, feedScheduleStep, h, ih1], ?_⟩
      cases auto_update_now <;>
        simp [feedsForScheduledUpdate, feedScheduleStep, feedIncluded, List.filter_cons, h, ih2]
    · by_cases hr : feed.autoUpdateRemainingInterval - 1 ≤ 0 <;>
        exact ⟨by simp [feedsForScheduledUpdate, feedScheduleStep, h, hr, ih1],
               by simp [feedsForScheduledUpdate, feedScheduleStep, feedIncluded,
                        List.filter_cons, h, hr, ih2]⟩

/-- C3 counterexample: with a store whose `commit()` fails but whose
`rollback()` succeeds, `markFeedsRead` returns `true` although the commit
failed — refuting "only a successful commit yields a true return". -/
theorem markFeedsRead_true_without_commit :
    (markFeedsRead ⟨true, true, true, false, true⟩).2 = true ∧
    (⟨true, true, true, false, true⟩ : DbOracle).commitOk = false := by
  decide

/-- C3 amended: in `markFeedsRead` and `markFeedsDeleted`, failure at
transaction start returns false; failure at preparation rolls back and
returns false; failure at execution triggers a rollback but the commit is
still attempted and the call returns true if the commit call succeeds; when
the commit call fails one more rollback is attempted and its result is
returned.  Hence the call returns true iff transaction start and preparation
succeed and the commit or the final rollback succeeds, and a rollback is
issued exactly when the transaction started and preparation, execution or
commit failed. -/
theorem markFeeds_transaction_behaviour (db : DbOracle) (read_only : Bool) :
    (markFeedsRead db).2
      = (db.transactionOk && db.prepareOk && (db.commitOk || db.rollbackOk)) ∧
    (markFeedsDeleted read_only db).2
      = (db.transactionOk && db.prepareOk && (db.commitOk || db.rollbackOk)) ∧
    (markFeedsRead db).1.contains .rollback
      = (db.transactionOk && (!db.prepareOk || !db.execOk || !db.commitOk)) ∧
    (markFeedsDeleted read_only db).1.contains .rollback
      = (db.transactionOk && (!db.prepareOk || !db.execOk || !db.commitOk)) := by
  obtain ⟨t, p, e, c, r⟩ := db
  cases read_only <;> cases t <;> cases p <;> cases e <;> cases c <;> cases r <;> decide

end RssGuard
